import Mathlib

set_option maxRecDepth 100000

/-!
Verification development for the stats-util repository (src/main.py).

The program ingests "Daily Fundraiser Summary" modmail messages into a
DuckDB table `fundraisers`, tracks an incremental-ingestion watermark in
table `last_processed`, and runs four analytical SQL queries over the
stored observations.  This file gives a shallow embedding of that code:

* Python string/int primitives are modelled on `List Char` / `String`
  (`pySplit` is `str.split(sep)`, `pyInt` is `int(str)`, `pyStripChars`
  is `str.strip()`, `strptimeZ` is
  `datetime.strptime(s, "%Y-%m-%dT%H:%M:%S.%fZ")`).
* The message parser and the ingestion loop of `main()` become pure
  functions over an explicit database state (`DBState`) and an explicit
  newest-first record sequence, emitting an event trace (`Event`) that
  records the order of database writes.
* The SQL queries become functions over the list of stored rows; the
  `ROW_NUMBER() OVER (PARTITION BY ... ORDER BY Timestamp DESC)` window
  is embedded with a deterministic tie-break (input order), and money is
  `Raised / 100.0` in `ℚ`.
-/

namespace StatsUtil

/-! ## Python string and integer primitives -/

/-- Whitespace characters recognised by Python's `str.strip()` / `int()`
(ASCII fragment; the source data is ASCII). -/
def pyIsSpace (c : Char) : Bool :=
  c == ' ' || c == '\t' || c == '\n' || c == '\r' || c == '\x0b' || c == '\x0c'

/-- Model of Python `str.strip()` on a character list. -/
def pyStripChars (l : List Char) : List Char :=
  ((l.dropWhile pyIsSpace).reverse.dropWhile pyIsSpace).reverse

/-- Model of Python `str.strip()`. -/
def pyStrip (s : String) : String :=
  ⟨pyStripChars s.data⟩

/-- Truthiness of a Python string after `strip()`: it has a non-space char. -/
def hasNonWS (s : String) : Bool :=
  s.data.any fun c => ! pyIsSpace c

/-- Model of Python `str.startswith(pre)`. -/
def pyStartsWith (pre s : String) : Bool :=
  pre.data.isPrefixOf s.data

/-- Worker for `pySplit`; `fuel` dominates the length of `s` so the
recursion is structural in the fuel. -/
def pySplitGo (sep : List Char) : Nat → List Char → List Char → List (List Char)
  | 0, _, acc => [acc.reverse]
  | fuel + 1, s, acc =>
    if sep.isPrefixOf s then
      acc.reverse :: pySplitGo sep fuel (s.drop sep.length) []
    else
      match s with
      | [] => [acc.reverse]
      | c :: rest => pySplitGo sep fuel rest (c :: acc)

/-- Model of Python `str.split(sep)` for a non-empty separator. -/
def pySplit (sep : String) (s : String) : List String :=
  (pySplitGo sep.data (s.data.length + 1) s.data []).map fun l => ⟨l⟩

/-- Digit accumulator for `pyInt`.  `mustDigit` is true at the start and
right after an underscore, where Python requires a digit. -/
def pyDigitsCore : List Char → Nat → Bool → Option Nat
  | [], acc, mustDigit => if mustDigit then none else some acc
  | c :: s, acc, mustDigit =>
    if c.isDigit then pyDigitsCore s (acc * 10 + (c.toNat - 48)) false
    else if c == '_' && ! mustDigit then pyDigitsCore s acc true
    else none

/-- Model of Python `int(str)`: optional surrounding whitespace, optional
sign, decimal digits with single interior underscores.  `none` models the
`ValueError` that `main` catches per data line. -/
def pyInt (s : String) : Option Int :=
  match pyStripChars s.data with
  | '+' :: rest => (pyDigitsCore rest 0 true).map fun n => (n : Int)
  | '-' :: rest => (pyDigitsCore rest 0 true).map fun n => -(n : Int)
  | rest => (pyDigitsCore rest 0 true).map fun n => (n : Int)

/-! ## Datetime model and `strptime` -/

/-- Structured timestamp as produced by
`datetime.strptime(ts, "%Y-%m-%dT%H:%M:%S.%fZ")`. -/
@[ext]
structure PyDateTime where
  year : Nat
  month : Nat
  day : Nat
  hour : Nat
  minute : Nat
  second : Nat
  microsecond : Nat
deriving DecidableEq, Repr

/-- Chronological strict order on timestamps (lexicographic on the
fields, which agrees with real time order on calendar-valid values). -/
def tsLt (a b : PyDateTime) : Prop :=
  a.year < b.year ∨ (a.year = b.year ∧
    (a.month < b.month ∨ (a.month = b.month ∧
      (a.day < b.day ∨ (a.day = b.day ∧
        (a.hour < b.hour ∨ (a.hour = b.hour ∧
          (a.minute < b.minute ∨ (a.minute = b.minute ∧
            (a.second < b.second ∨ (a.second = b.second ∧
              a.microsecond < b.microsecond)))))))))))

instance (a b : PyDateTime) : Decidable (tsLt a b) := by
  unfold tsLt; exact inferInstance

/-- Calendar day of a timestamp, as computed by SQL
`DATE_TRUNC('day', Timestamp)`. -/
def dayOf (t : PyDateTime) : Nat × Nat × Nat :=
  (t.year, t.month, t.day)

/-- Gregorian leap-year test, as used by `datetime`'s day validation. -/
def isLeap (y : Nat) : Bool :=
  y % 4 == 0 && (y % 100 != 0 || y % 400 == 0)

/-- Days in a month, as used by `datetime`'s day validation. -/
def daysInMonth (y m : Nat) : Nat :=
  if m = 2 then (if isLeap y then 29 else 28)
  else if m = 4 ∨ m = 6 ∨ m = 9 ∨ m = 11 then 30
  else 31

/-- Parse exactly `n` digits into a number. -/
def takeDigitsN : Nat → Nat → List Char → Option (Nat × List Char)
  | 0, acc, s => some (acc, s)
  | n + 1, acc, c :: s =>
    if c.isDigit then takeDigitsN n (acc * 10 + (c.toNat - 48)) s else none
  | _ + 1, _, [] => none

/-- Parse one or two digits (greedy), as the `strptime` regexes for
`%m`, `%d`, `%H`, `%M`, `%S` do when followed by a non-digit. -/
def takeOneTwoDigits : List Char → Option (Nat × List Char)
  | c :: d :: s =>
    if c.isDigit then
      if d.isDigit then some ((c.toNat - 48) * 10 + (d.toNat - 48), s)
      else some (c.toNat - 48, d :: s)
    else none
  | [c] => if c.isDigit then some (c.toNat - 48, []) else none
  | [] => none

/-- Collect up to six leading digits (value, how many, rest). -/
def fracGo : List Char → Nat → Nat → Nat × Nat × List Char
  | [], acc, k => (acc, k, [])
  | c :: s, acc, k =>
    if c.isDigit ∧ k < 6 then fracGo s (acc * 10 + (c.toNat - 48)) (k + 1)
    else (acc, k, c :: s)

/-- Parse the `%f` directive: one to six digits, right-padded with zeros
to microseconds. -/
def takeFrac (s : List Char) : Option (Nat × List Char) :=
  match fracGo s 0 0 with
  | (v, k, rest) => if k = 0 then none else some (v * 10 ^ (6 - k), rest)

/-- Expect a literal character, case-insensitively when `c` is a letter
(CPython compiles the `strptime` format regex with `IGNORECASE`; `c` and
`lo` coincide for non-letters). -/
def expectCharCI (c lo : Char) : List Char → Option (List Char)
  | d :: s => if d == c || d == lo then some s else none
  | [] => none

/-- Parse a numeric field followed by a literal character. -/
def fieldThen (take : List Char → Option (Nat × List Char)) (c lo : Char)
    (s : List Char) : Option (Nat × List Char) :=
  match take s with
  | none => none
  | some (v, s1) =>
    match expectCharCI c lo s1 with
    | none => none
    | some s2 => some (v, s2)

/-- Model of `datetime.strptime(s, "%Y-%m-%dT%H:%M:%S.%fZ")`: `none`
models the `ValueError` that `main` catches per data line (either a
regex mismatch or the `datetime` constructor's range check). -/
def strptimeZ (s : String) : Option PyDateTime :=
  match fieldThen (takeDigitsN 4 0) '-' '-' s.data with
  | none => none
  | some (y, s1) =>
  match fieldThen takeOneTwoDigits '-' '-' s1 with
  | none => none
  | some (mo, s2) =>
  match fieldThen takeOneTwoDigits 'T' 't' s2 with
  | none => none
  | some (d, s3) =>
  match fieldThen takeOneTwoDigits ':' ':' s3 with
  | none => none
  | some (h, s4) =>
  match fieldThen takeOneTwoDigits ':' ':' s4 with
  | none => none
  | some (mi, s5) =>
  match fieldThen takeOneTwoDigits '.' '.' s5 with
  | none => none
  | some (sec, s6) =>
  match fieldThen takeFrac 'Z' 'z' s6 with
  | none => none
  | some (us, s7) =>
  match s7 with
  | [] =>
    if 1 ≤ y ∧ 1 ≤ mo ∧ mo ≤ 12 ∧ 1 ≤ d ∧ d ≤ daysInMonth y mo ∧
        h ≤ 23 ∧ mi ≤ 59 ∧ sec ≤ 59 then
      some ⟨y, mo, d, h, mi, sec, us⟩
    else none
  | _ => none

/-! ## Data model -/

/-- One row of the `fundraisers` table
(`PostID, FundraiserID, Raised, Timestamp, Subreddit`). -/
structure Obs where
  postID : String
  fundraiserID : String
  raised : Int
  timestamp : PyDateTime
  subreddit : String
deriving DecidableEq, Repr

/-! ## Message parser (lines 72-94 of `main`) -/

/-- Model of `message.subject.split(": r/")[1]`: `none` models the
`IndexError` caught at line 75. -/
def parseSubject (s : String) : Option String :=
  (pySplit ": r/" s).get? 1

/-- Line filter of line 82: keep lines that are non-blank and start with
neither `"PostID"` nor `"Subreddit:"`. -/
def keepLine (line : String) : Bool :=
  hasNonWS line && ! pyStartsWith "PostID" line && ! pyStartsWith "Subreddit:" line

/-- Model of lines 87-94: split a data line on `','` into exactly four
fields, parse `Raised` as an int and `Timestamp` with `strptime`; any
failure (`ValueError`, including a wrong field count at the unpacking)
skips the line. -/
def parseLine (subName : String) (line : String) : Option Obs :=
  match pySplit "," line with
  | [p, f, r, t] =>
    match pyInt r, strptimeZ t with
    | some ri, some ts => some ⟨p, f, ri, ts, subName⟩
    | _, _ => none
  | _ => none

/-- Parse a list of body lines: filter (line 82), then per-line parse. -/
def parseLines (subName : String) (ls : List String) : List Obs :=
  (ls.filter keepLine).filterMap (parseLine subName)

/-- Model of lines 79-94 applied to `messages[0].body_markdown`. -/
def parseBody (subName : String) (body : String) : List Obs :=
  parseLines subName (pySplit "\n" (pyStrip body))

/-! ## Ingestion loop (`main`, lines 32-109) -/

/-- Module constant `DEBUG` (line 28). -/
def DEBUG : Bool := false

/-- Module constant `EXCLUDED_SUBREDDITS` (line 29). -/
def EXCLUDED_SUBREDDITS : List String :=
  ["FundraisersOnReddit", "fundraisersTests", "SnoowyDayFund", "cedartest",
   "axolotl_playground"]

/-- Module constant `FUNDRAISERS_APP_USER_ID` (line 30). -/
def FUNDRAISERS_APP_USER_ID : String := "14u2cffx3h"

/-- One conversation record of the externally supplied newest-first
sequence: `authors[0].id`, `id`, `subject`, `messages[0].body_markdown`. -/
structure Record where
  authorID : String
  id : String
  subject : String
  body : String
deriving DecidableEq, Repr

/-- Database state owned by the program: the `fundraisers` table and the
`last_processed` row for source key `"SnoowyDayFund"` (the only source
key the program uses). -/
structure DBState where
  fundraisers : List Obs
  watermark : Option String
deriving DecidableEq, Repr

/-- Database write events of one run, in execution order. -/
inductive Event where
  | insert (rows : List Obs)
  | setWatermark (id : String)
deriving DecidableEq, Repr

/-- Tests whether an event is the watermark upsert of lines 106-109. -/
def Event.isSetWatermark : Event → Bool
  | Event.setWatermark _ => true
  | Event.insert _ => false

/-- All rows inserted by a trace of events. -/
def insertedRows : List Event → List Obs
  | [] => []
  | Event.insert l :: es => l ++ insertedRows es
  | Event.setWatermark _ :: es => insertedRows es

/-- Model of lines 72-94: observations parsed from one record (empty
when the subject lacks the marker, when the subject split fails with
`IndexError`, or when no data line parses). -/
def processMessage (r : Record) : List Obs :=
  if pyStartsWith "Daily Fundraiser Summary" r.subject then
    match parseSubject r.subject with
    | some name => parseBody name r.body
    | none => []
  else []

/-- Candidate-watermark capture of lines 70-71: set once, never
overwritten. -/
def candOr (cand : Option String) (i : String) : Option String :=
  match cand with
  | none => some i
  | some c => some c

/-- Loop of lines 65-102 over the newest-first sequence: skip records by
the author filter, break at the stored watermark id, otherwise parse and
insert.  Returns the inserted rows, the insert events in order, and the
candidate watermark. -/
def runLoop (wm : Option String) :
    List Record → Option String → List Obs × List Event × Option String
  | [], cand => ([], [], cand)
  | r :: rs, cand =>
    if r.authorID = FUNDRAISERS_APP_USER_ID then
      if wm = some r.id then ([], [], cand)
      else
        let obs := processMessage r
        let rest := runLoop wm rs (candOr cand r.id)
        (obs ++ rest.1,
         (if obs.isEmpty then [] else [Event.insert obs]) ++ rest.2.1,
         rest.2.2)
    else runLoop wm rs cand

/-- Model of `main()` (lines 32-109) over an explicit database state and
record sequence: run the loop, then upsert the watermark under Python's
truthiness test `if new_last_processed_id:` (line 105), which is false
for both `None` and the empty string. -/
def main (db : DBState) (seq : List Record) : DBState × List Event :=
  let res := runLoop db.watermark seq none
  match res.2.2 with
  | some c =>
    if c = "" then (⟨db.fundraisers ++ res.1, db.watermark⟩, res.2.1)
    else (⟨db.fundraisers ++ res.1, some c⟩, res.2.1 ++ [Event.setWatermark c])
  | none => (⟨db.fundraisers ++ res.1, db.watermark⟩, res.2.1)

/-- Records the loop actually processes in one run: the author-matching
records strictly before the first author-matching record whose id equals
the stored watermark. -/
def inRangeQualifying (wm : Option String) (seq : List Record) : List Record :=
  (seq.takeWhile fun r =>
      ! (decide (r.authorID = FUNDRAISERS_APP_USER_ID) && decide (wm = some r.id))).filter
    fun r => decide (r.authorID = FUNDRAISERS_APP_USER_ID)

/-! ## SQL window functions and deduplication -/

/-- Pair every row with its position in the table scan. -/
def withIdx : List Obs → Nat → List (Nat × Obs)
  | [], _ => []
  | r :: rs, n => (n, r) :: withIdx rs (n + 1)

/-- Row `q` is ordered strictly before row `p` by
`ORDER BY Timestamp DESC` with the deterministic input-order tie-break
used by this embedding of `ROW_NUMBER()`. -/
def beats (q p : Nat × Obs) : Prop :=
  tsLt p.2.timestamp q.2.timestamp ∨ (p.2.timestamp = q.2.timestamp ∧ q.1 < p.1)

instance (q p : Nat × Obs) : Decidable (beats q p) := by
  unfold beats; exact inferInstance

/-- Row `p` receives `rn = 1` in its partition: no row with the same
partition key is ordered before it. -/
def survives {κ : Type} (key : Obs → κ) (il : List (Nat × Obs)) (p : Nat × Obs) : Prop :=
  ∀ q ∈ il, key q.2 = key p.2 → ¬ beats q p

instance {κ : Type} [DecidableEq κ] (key : Obs → κ) (il : List (Nat × Obs))
    (p : Nat × Obs) : Decidable (survives key il p) := by
  unfold survives; exact inferInstance

/-- Rows kept by `WHERE rn = 1` for
`ROW_NUMBER() OVER (PARTITION BY key ORDER BY Timestamp DESC)`. -/
def dedupBy {κ : Type} [DecidableEq κ] (key : Obs → κ) (rows : List Obs) : List Obs :=
  let il := withIdx rows 0
  (il.filter fun p => decide (survives key il p)).map Prod.snd

/-- Partition key of Dedup rule A: `FundraiserID, DATE_TRUNC('day', Timestamp)`. -/
def keyA (r : Obs) : String × (Nat × Nat × Nat) := (r.fundraiserID, dayOf r.timestamp)

/-- Partition key of Dedup rule B: `FundraiserID`. -/
def keyB (r : Obs) : String := r.fundraiserID

/-- Dedup rule A: latest row per fundraiser per calendar day. -/
def dedupA (rows : List Obs) : List Obs := dedupBy keyA rows

/-- Dedup rule B: latest row per fundraiser over all time. -/
def dedupB (rows : List Obs) : List Obs := dedupBy keyB rows

/-- Shared filter `WHERE ? OR Subreddit NOT IN (SELECT unnest(?))`
with parameters `DEBUG` and `EXCLUDED_SUBREDDITS`. -/
def includedRows (rows : List Obs) : List Obs :=
  rows.filter fun r => DEBUG || ! (EXCLUDED_SUBREDDITS.contains r.subreddit)

/-- SQL `SUM(Raised)` over a group. -/
def sumRaised (l : List Obs) : Int :=
  l.foldl (fun a r => a + r.raised) 0

/-- SQL `MAX(Raised)` over a group (groups are non-empty in SQL; the
empty case is unreachable). -/
def maxRaisedIn : List Obs → Int
  | [] => 0
  | r :: rs => rs.foldl (fun a x => max a x.raised) r.raised

/-! ## Aggregation queries -/

/-- Grouping key of the Top Fundraisers query: `FundraiserID, Subreddit`. -/
def keyFS (r : Obs) : String × String := (r.fundraiserID, r.subreddit)

/-- Output row of `calculate_top_fundraisers`. -/
structure TopRow where
  fundraiserID : String
  maxRaised : ℚ
  subreddit : String
deriving DecidableEq, Repr

/-- Model of `calculate_top_fundraisers` (lines 111-126): Dedup A, then
`MAX(Raised) / 100.0` per `(FundraiserID, Subreddit)`, sorted descending
and limited. -/
def calculate_top_fundraisers (rows : List Obs) (limit : Nat) : List TopRow :=
  let base := dedupA (includedRows rows)
  let keys := (base.map keyFS).dedup
  let grouped := keys.map fun k =>
    TopRow.mk k.1 ((maxRaisedIn (base.filter fun r => decide (keyFS r = k)) : ℚ) / 100) k.2
  (List.insertionSort (fun a b => b.maxRaised ≤ a.maxRaised) grouped).take limit

/-- Weak order on calendar days for `ORDER BY Date` / `MIN` / `MAX`. -/
def dateLe (a b : Nat × Nat × Nat) : Prop :=
  a.1 < b.1 ∨ (a.1 = b.1 ∧ (a.2.1 < b.2.1 ∨ (a.2.1 = b.2.1 ∧ a.2.2 ≤ b.2.2)))

instance (a b : Nat × Nat × Nat) : Decidable (dateLe a b) := by
  unfold dateLe; exact inferInstance

/-- Binary minimum for SQL `MIN(DATE_TRUNC('day', Timestamp))`. -/
def dateMin (a b : Nat × Nat × Nat) : Nat × Nat × Nat := if dateLe a b then a else b

/-- Binary maximum for SQL `MAX(DATE_TRUNC('day', Timestamp))`. -/
def dateMax (a b : Nat × Nat × Nat) : Nat × Nat × Nat := if dateLe a b then b else a

/-- SQL `MIN` over the days of a group (groups are non-empty). -/
def minDayIn : List (Nat × Nat × Nat) → Nat × Nat × Nat
  | [] => (0, 0, 0)
  | d :: ds => ds.foldl dateMin d

/-- SQL `MAX` over the days of a group (groups are non-empty). -/
def maxDayIn : List (Nat × Nat × Nat) → Nat × Nat × Nat
  | [] => (0, 0, 0)
  | d :: ds => ds.foldl dateMax d

/-- Output row of the Daily Totals query. -/
structure DailyRow where
  date : Nat × Nat × Nat
  dailyTotal : ℚ
deriving DecidableEq, Repr

/-- Model of the query of `create_daily_totals_chart` (lines 131-145):
Dedup A, then `SUM(Raised) / 100.0` per day, ordered by day.  Chart
rendering is out of scope. -/
def create_daily_totals_chart (rows : List Obs) : List DailyRow :=
  let base := dedupA (includedRows rows)
  let keys := (base.map fun r => dayOf r.timestamp).dedup
  let grouped := keys.map fun d =>
    DailyRow.mk d ((sumRaised (base.filter fun r => decide (dayOf r.timestamp = d)) : ℚ) / 100)
  List.insertionSort (fun a b => dateLe a.date b.date) grouped

/-- Output row of the Subreddit Totals query. -/
structure SubTotalRow where
  subreddit : String
  totalRaised : ℚ
deriving DecidableEq, Repr

/-- Model of the query of `create_subreddit_bar_chart` (lines 180-194):
Dedup B, then `SUM(Raised) / 100.0` per subreddit, sorted descending. -/
def create_subreddit_bar_chart (rows : List Obs) : List SubTotalRow :=
  let base := dedupB (includedRows rows)
  let keys := (base.map fun r => r.subreddit).dedup
  let grouped := keys.map fun s =>
    SubTotalRow.mk s ((sumRaised (base.filter fun r => decide (r.subreddit = s)) : ℚ) / 100)
  List.insertionSort (fun a b => b.totalRaised ≤ a.totalRaised) grouped

/-- The guarded average of line 249:
`CASE WHEN DaysActive > 0 THEN TotalRaised / DaysActive ELSE 0 END`. -/
def avgRaisedPerDayFn (total : ℚ) (daysActive : Nat) : ℚ :=
  if 0 < daysActive then total / (daysActive : ℚ) else 0

/-- Output row of the Subreddit Growth query. -/
structure GrowthRow where
  subreddit : String
  firstDay : Nat × Nat × Nat
  lastDay : Nat × Nat × Nat
  daysActive : Nat
  totalFundraisers : Nat
  totalRaised : ℚ
  avgRaisedPerDay : ℚ
deriving DecidableEq, Repr

/-- Model of `calculate_subreddit_growth` (lines 230-254).  The span
statistics range over all rows of `latest_fundraiser` (the filtered
table with its `rn` column); only `TotalRaised` is gated on `rn = 1`
through `SUM(CASE WHEN lf.rn = 1 THEN lf.Raised ELSE 0 END)`. -/
def calculate_subreddit_growth (rows : List Obs) : List GrowthRow :=
  let lf := includedRows rows
  let il := withIdx lf 0
  let keys := (lf.map fun r => r.subreddit).dedup
  let grouped := keys.map fun s =>
    let g := lf.filter fun r => decide (r.subreddit = s)
    let days := (g.map fun r => dayOf r.timestamp).dedup
    let totalRaised : ℚ :=
      ((((il.filter fun p => decide (p.2.subreddit = s)).map
          fun p => if survives keyB il p then p.2.raised else 0).foldl (· + ·) 0 : Int) : ℚ) / 100
    GrowthRow.mk s (minDayIn days) (maxDayIn days) days.length
      ((g.map fun r => r.fundraiserID).dedup.length) totalRaised
      (avgRaisedPerDayFn totalRaised days.length)
  List.insertionSort (fun a b => b.totalRaised ≤ a.totalRaised) grouped

/-- Reading of the spec's words for the Subreddit Growth claim: every
per-source statistic (first day, last day, active days, fundraiser
count, total raised) computed over the rows kept by Dedup rule B.  Used
only for comparison against `calculate_subreddit_growth`. -/
def subredditGrowthSpec (rows : List Obs) : List GrowthRow :=
  let base := dedupB (includedRows rows)
  let keys := (base.map fun r => r.subreddit).dedup
  let grouped := keys.map fun s =>
    let g := base.filter fun r => decide (r.subreddit = s)
    let days := (g.map fun r => dayOf r.timestamp).dedup
    let totalRaised : ℚ := ((sumRaised g : Int) : ℚ) / 100
    GrowthRow.mk s (minDayIn days) (maxDayIn days) days.length
      ((g.map fun r => r.fundraiserID).dedup.length) totalRaised
      (avgRaisedPerDayFn totalRaised days.length)
  List.insertionSort (fun a b => b.totalRaised ≤ a.totalRaised) grouped

/-- Suffix of a character list following the first occurrence of `sep`,
or `none` when `sep` does not occur. -/
def subAfter (sep : List Char) : List Char → Option (List Char)
  | [] => if sep.isPrefixOf ([] : List Char) then some [] else none
  | c :: rest =>
    if sep.isPrefixOf (c :: rest) then some ((c :: rest).drop sep.length)
    else subAfter sep rest

/-- Reading of the spec's words for the subject-parsing claim: the
substring of the subject following the literal separator `": r/"`.  Used
only for comparison against `parseSubject`. -/
def specSubstringAfterSeparator (subject : String) : Option String :=
  (subAfter ": r/".data subject.data).map fun l => ⟨l⟩

/-! ## Concrete inputs used by witnesses and counterexamples -/

/-- Concrete well-formed record used by witnesses: trusted author,
non-empty id, valid summary subject and one valid data line. -/
def wRecord : Record :=
  ⟨FUNDRAISERS_APP_USER_ID, "idA", "Daily Fundraiser Summary: r/test",
   "p1,f1,500,2024-01-01T00:00:00.000000Z"⟩

/-- Concrete record whose conversation id is the empty string. -/
def emptyIdRecord : Record :=
  ⟨FUNDRAISERS_APP_USER_ID, "", "Daily Fundraiser Summary: r/test",
   "p1,f1,500,2024-01-01T00:00:00.000000Z"⟩

/-- Concrete author-matching record with empty id and non-summary subject. -/
def emptyIdPlainRecord : Record := ⟨FUNDRAISERS_APP_USER_ID, "", "x", ""⟩

/-- Empty initial database state. -/
def emptyDB : DBState := ⟨[], none⟩

/-- Two rows of one fundraiser with identical timestamps on one day. -/
def tieRows : List Obs :=
  [⟨"p1", "f1", 500, ⟨2024, 1, 1, 0, 0, 0, 0⟩, "test"⟩,
   ⟨"p2", "f1", 600, ⟨2024, 1, 1, 0, 0, 0, 0⟩, "test"⟩]

/-- One fundraiser observed on two different days in one subreddit. -/
def twoDayRows : List Obs :=
  [⟨"p1", "f1", 500, ⟨2024, 1, 1, 0, 0, 0, 0⟩, "test"⟩,
   ⟨"p2", "f1", 900, ⟨2024, 1, 2, 12, 0, 0, 0⟩, "test"⟩]


/-! ## Order and window-function lemmas -/


lemma tsLt_irrefl (a : PyDateTime) : ¬ tsLt a a := by
  unfold tsLt; omega

lemma tsLt_trans {a b c : PyDateTime} (h1 : tsLt a b) (h2 : tsLt b c) : tsLt a c := by
  unfold tsLt at *; omega

lemma tsLt_connex {a b : PyDateTime} (h : a ≠ b) : tsLt a b ∨ tsLt b a := by
  by_contra hc
  push_neg at hc
  apply h
  ext <;> (unfold tsLt at hc; omega)

lemma beats_irrefl (p : Nat × Obs) : ¬ beats p p := by
  unfold beats
  rintro (h | ⟨-, h⟩)
  · exact tsLt_irrefl _ h
  · omega

lemma beats_trans {a b c : Nat × Obs} (h1 : beats a b) (h2 : beats b c) : beats a c := by
  unfold beats at *
  rcases h1 with h1 | ⟨e1, l1⟩ <;> rcases h2 with h2 | ⟨e2, l2⟩
  · exact Or.inl (tsLt_trans h2 h1)
  · exact Or.inl (e2 ▸ h1)
  · exact Or.inl (e1 ▸ h2)
  · exact Or.inr ⟨e2.trans e1, Nat.lt_trans l1 l2⟩

lemma beats_connex {a b : Nat × Obs} (h : a.1 ≠ b.1) : beats a b ∨ beats b a := by
  unfold beats
  rcases eq_or_ne a.2.timestamp b.2.timestamp with e | ne
  · rcases Nat.lt_or_ge a.1 b.1 with hl | hl
    · exact Or.inl (Or.inr ⟨e.symm, hl⟩)
    · exact Or.inr (Or.inr ⟨e, by omega⟩)
  · rcases tsLt_connex ne with l | l
    · exact Or.inr (Or.inl l)
    · exact Or.inl (Or.inl l)

lemma withIdx_map_snd (l : List Obs) (n : Nat) : (withIdx l n).map Prod.snd = l := by
  induction l generalizing n with
  | nil => rfl
  | cons r rs ih => simp [withIdx, ih]

lemma withIdx_fst_ge {l : List Obs} {n : Nat} {p : Nat × Obs} (h : p ∈ withIdx l n) :
    n ≤ p.1 := by
  induction l generalizing n with
  | nil => simp [withIdx] at h
  | cons r rs ih =>
    rcases List.mem_cons.mp h with rfl | h
    · exact Nat.le_refl n
    · have := ih h; omega

lemma withIdx_pairwise (l : List Obs) (n : Nat) :
    (withIdx l n).Pairwise fun a b => a.1 < b.1 := by
  induction l generalizing n with
  | nil => exact List.Pairwise.nil
  | cons r rs ih =>
    refine List.Pairwise.cons ?_ (ih (n + 1))
    intro q hq
    have := withIdx_fst_ge hq
    show n < q.1
    omega

lemma mem_withIdx_of_mem {l : List Obs} {r : Obs} (h : r ∈ l) (n : Nat) :
    ∃ i, (i, r) ∈ withIdx l n := by
  induction l generalizing n with
  | nil => cases h
  | cons x xs ih =>
    rcases List.mem_cons.mp h with rfl | h
    · exact ⟨n, by simp [withIdx]⟩
    · obtain ⟨i, hi⟩ := ih h (n + 1)
      exact ⟨i, by simp [withIdx, hi]⟩

lemma exists_unbeaten (P : List (Nat × Obs)) (hne : P ≠ []) :
    ∃ m ∈ P, ∀ q ∈ P, ¬ beats q m := by
  induction P with
  | nil => exact absurd rfl hne
  | cons x xs ih =>
    by_cases hx : xs = []
    · subst hx
      refine ⟨x, by simp, ?_⟩
      intro q hq
      rcases List.mem_cons.mp hq with rfl | hq
      · exact beats_irrefl q
      · cases hq
    · obtain ⟨m, hm, hmin⟩ := ih hx
      by_cases hb : beats x m
      · refine ⟨x, by simp, ?_⟩
        intro q hq
        rcases List.mem_cons.mp hq with rfl | hq
        · exact beats_irrefl q
        · exact fun hqx => hmin q hq (beats_trans hqx hb)
      · refine ⟨m, List.mem_cons_of_mem _ hm, ?_⟩
        intro q hq
        rcases List.mem_cons.mp hq with rfl | hq
        · exact hb
        · exact hmin q hq

lemma countP_unbeaten_eq_one (P : List (Nat × Obs)) (hne : P ≠ [])
    (hpw : P.Pairwise fun a b => a.1 < b.1) :
    (P.countP fun p => decide (∀ q ∈ P, ¬ beats q p)) = 1 := by
  rw [List.countP_eq_length_filter]
  obtain ⟨m, hm, hmin⟩ := exists_unbeaten P hne
  have hmem : m ∈ P.filter fun p => decide (∀ q ∈ P, ¬ beats q p) :=
    List.mem_filter.mpr ⟨hm, by simpa using hmin⟩
  have hfpw : (P.filter fun p => decide (∀ q ∈ P, ¬ beats q p)).Pairwise
      (fun a b => a.1 < b.1) :=
    List.Pairwise.sublist (List.filter_sublist P) hpw
  match hF : P.filter fun p => decide (∀ q ∈ P, ¬ beats q p) with
  | [] => rw [hF] at hmem; cases hmem
  | [x] => rfl
  | x :: y :: t =>
    exfalso
    have hx := List.mem_filter.mp (show x ∈ P.filter _ from hF ▸ List.mem_cons_self x (y :: t))
    have hy := List.mem_filter.mp
      (show y ∈ P.filter _ from hF ▸ List.mem_cons_of_mem x (List.mem_cons_self y t))
    rw [hF] at hfpw
    have hlt : x.1 < y.1 :=
      (List.pairwise_cons.mp hfpw).1 y (List.mem_cons_self y t)
    have hxP : ∀ q ∈ P, ¬ beats q x := by simpa using hx.2
    have hyP : ∀ q ∈ P, ¬ beats q y := by simpa using hy.2
    rcases beats_connex (Nat.ne_of_lt hlt) with hb | hb
    · exact hyP x hx.1 hb
    · exact hxP y hy.1 hb

lemma survives_iff_partition {κ : Type} [DecidableEq κ] (key : Obs → κ)
    (il : List (Nat × Obs)) (p : Nat × Obs) (k : κ) (hp : key p.2 = k) :
    survives key il p ↔
      ∀ q ∈ il.filter (fun q => decide (key q.2 = k)), ¬ beats q p := by
  unfold survives
  constructor
  · intro h q hq
    rcases List.mem_filter.mp hq with ⟨h1, h2⟩
    exact h q h1 (by simp at h2; rw [h2, hp])
  · intro h q hq he
    exact h q (List.mem_filter.mpr ⟨hq, by simp [he, hp]⟩)

theorem dedupBy_countP_eq_one {κ : Type} [DecidableEq κ] (key : Obs → κ)
    (rows : List Obs) (k : κ) (h : ∃ r ∈ rows, key r = k) :
    ((dedupBy key rows).countP fun r => decide (key r = k)) = 1 := by
  set il := withIdx rows 0 with hil
  set P := il.filter (fun q => decide (key q.2 = k)) with hP
  have step1 : ((dedupBy key rows).countP fun r => decide (key r = k)) =
      P.countP fun p => decide (survives key il p) := by
    unfold dedupBy
    rw [List.countP_map, List.countP_filter, hP, List.countP_filter, ← hil]
    exact List.countP_congr fun a _ => by simp [Bool.and_comm]
  rw [step1]
  have step2 : (P.countP fun p => decide (survives key il p)) =
      P.countP fun p => decide (∀ q ∈ P, ¬ beats q p) := by
    refine List.countP_congr fun a ha => ?_
    have hk : key a.2 = k := by
      have := (List.mem_filter.mp ha).2; simpa using this
    show decide (survives key il a) = true ↔ decide (∀ q ∈ P, ¬ beats q a) = true
    simp only [decide_eq_true_eq]
    exact survives_iff_partition key il a k hk
  rw [step2]
  obtain ⟨r, hr, hk⟩ := h
  obtain ⟨i, hi⟩ := mem_withIdx_of_mem hr 0
  have hPne : P ≠ [] :=
    List.ne_nil_of_mem (List.mem_filter.mpr ⟨hi, by simp [hk]⟩)
  exact countP_unbeaten_eq_one P hPne
    (List.Pairwise.sublist (List.filter_sublist il) (withIdx_pairwise rows 0))

theorem dedupBy_countP_le_one {κ : Type} [DecidableEq κ] (key : Obs → κ)
    (rows : List Obs) (k : κ) :
    ((dedupBy key rows).countP fun r => decide (key r = k)) ≤ 1 := by
  by_cases h : ∃ r ∈ rows, key r = k
  · exact Nat.le_of_eq (dedupBy_countP_eq_one key rows k h)
  · have : ((dedupBy key rows).countP fun r => decide (key r = k)) = 0 := by
      rw [List.countP_eq_zero]
      intro a ha hk
      apply h
      refine ⟨a, ?_, by simpa using hk⟩
      unfold dedupBy at ha
      rcases List.mem_map.mp ha with ⟨p, hp, rfl⟩
      have : p.2 ∈ (withIdx rows 0).map Prod.snd :=
        List.mem_map_of_mem _ (List.mem_of_mem_filter hp)
      rwa [withIdx_map_snd] at this
    omega


/-! ## Ingestion-loop lemmas -/


lemma inRangeQualifying_cons (wm : Option String) (r : Record) (rs : List Record) :
    inRangeQualifying wm (r :: rs) =
      if r.authorID = FUNDRAISERS_APP_USER_ID then
        (if wm = some r.id then [] else r :: inRangeQualifying wm rs)
      else inRangeQualifying wm rs := by
  unfold inRangeQualifying
  by_cases hA : r.authorID = FUNDRAISERS_APP_USER_ID
  · by_cases hB : wm = some r.id
    · simp [List.takeWhile_cons, hA, hB]
    · simp [List.takeWhile_cons, hA, hB]
  · simp [List.takeWhile_cons, hA]

lemma runLoop_cand_some (wm : Option String) (seq : List Record) (c : String) :
    (runLoop wm seq (some c)).2.2 = some c := by
  induction seq with
  | nil => rfl
  | cons r rs ih =>
    by_cases hA : r.authorID = FUNDRAISERS_APP_USER_ID
    · by_cases hB : wm = some r.id
      · simp [runLoop, hA, hB]
      · simp [runLoop, hA, hB, candOr, ih]
    · simp [runLoop, hA, ih]

lemma runLoop_cand (wm : Option String) (seq : List Record) :
    (runLoop wm seq none).2.2 = ((inRangeQualifying wm seq).head?).map fun r => r.id := by
  induction seq with
  | nil => simp [runLoop, inRangeQualifying]
  | cons r rs ih =>
    rw [inRangeQualifying_cons]
    by_cases hA : r.authorID = FUNDRAISERS_APP_USER_ID
    · by_cases hB : wm = some r.id
      · simp [runLoop, hA, hB]
      · simp [runLoop, hA, hB, candOr, runLoop_cand_some]
    · simp [runLoop, hA, ih]

lemma runLoop_obs (wm : Option String) (seq : List Record) (cand : Option String) :
    (runLoop wm seq cand).1 = (inRangeQualifying wm seq).flatMap processMessage := by
  induction seq generalizing cand with
  | nil => simp [runLoop, inRangeQualifying]
  | cons r rs ih =>
    rw [inRangeQualifying_cons]
    by_cases hA : r.authorID = FUNDRAISERS_APP_USER_ID
    · by_cases hB : wm = some r.id
      · simp [runLoop, hA, hB]
      · simp [runLoop, hA, hB, ih]
    · simp [runLoop, hA, ih]

lemma runLoop_evs_no_set (wm : Option String) (seq : List Record) (cand : Option String) :
    ∀ e ∈ (runLoop wm seq cand).2.1, e.isSetWatermark = false := by
  induction seq generalizing cand with
  | nil => simp [runLoop]
  | cons r rs ih =>
    intro e he
    by_cases hA : r.authorID = FUNDRAISERS_APP_USER_ID
    · by_cases hB : wm = some r.id
      · simp [runLoop, hA, hB] at he
      · simp only [runLoop, if_pos hA, if_neg hB] at he
        rcases List.mem_append.mp he with h1 | h2
        · by_cases hE : (processMessage r).isEmpty
          · simp [hE] at h1
          · simp [hE] at h1
            subst h1
            rfl
        · exact ih _ e h2
    · simp only [runLoop, if_neg hA] at he
      exact ih _ e he

lemma insertedRows_append (es1 es2 : List Event) :
    insertedRows (es1 ++ es2) = insertedRows es1 ++ insertedRows es2 := by
  induction es1 with
  | nil => rfl
  | cons e es ih =>
    cases e with
    | insert l => simp [insertedRows, ih]
    | setWatermark i => simp [insertedRows, ih]

lemma insertedRows_runLoop (wm : Option String) (seq : List Record) (cand : Option String) :
    insertedRows (runLoop wm seq cand).2.1 = (runLoop wm seq cand).1 := by
  induction seq generalizing cand with
  | nil => rfl
  | cons r rs ih =>
    by_cases hA : r.authorID = FUNDRAISERS_APP_USER_ID
    · by_cases hB : wm = some r.id
      · simp [runLoop, hA, hB, insertedRows]
      · simp only [runLoop, if_pos hA, if_neg hB]
        rw [insertedRows_append, ih]
        by_cases hE : (processMessage r).isEmpty
        · rw [List.isEmpty_iff] at hE
          simp [hE, insertedRows]
        · have hne : processMessage r ≠ [] := by simpa [List.isEmpty_iff] using hE
          simp [hne, insertedRows]
    · simp only [runLoop, if_neg hA]
      exact ih _
  
lemma runLoop_obs_nil_of_cand_none (wm : Option String) (seq : List Record)
    (h : (runLoop wm seq none).2.2 = none) : (runLoop wm seq none).1 = [] := by
  rw [runLoop_cand] at h
  rw [runLoop_obs]
  cases hq : inRangeQualifying wm seq with
  | nil => simp
  | cons a l => rw [hq] at h; simp at h

lemma runLoop_break (wm : Option String) (seq : List Record) (c : String)
    (h : (runLoop wm seq none).2.2 = some c) :
    runLoop (some c) seq none = ([], [], none) := by
  induction seq with
  | nil => simp [runLoop] at h
  | cons r rs ih =>
    by_cases hA : r.authorID = FUNDRAISERS_APP_USER_ID
    · by_cases hB : wm = some r.id
      · simp [runLoop, hA, hB] at h
      · have hc : c = r.id := by
          simp only [runLoop, if_pos hA, if_neg hB, candOr] at h
          rw [runLoop_cand_some] at h
          exact (Option.some_injective _ h).symm
        subst hc
        simp [runLoop, hA]
    · have h2 : (runLoop wm rs none).2.2 = some c := by
        simpa only [runLoop, if_neg hA] using h
      simp [runLoop, hA, ih h2]

lemma mem_of_mem_inRangeQualifying {wm : Option String} {seq : List Record}
    {r : Record} (h : r ∈ inRangeQualifying wm seq) : r ∈ seq :=
  (List.takeWhile_sublist _).subset (List.mem_of_mem_filter h)


/-! ## Claims C1-C3: watermark and idempotency -/


/-- C1 (amended): running the ingestion loop a second time against the
unchanged source sequence, starting from the state left by the first
run, inserts zero new rows and leaves the watermark row unchanged,
provided every record id in the sequence is a non-empty string.  (The
truthiness test `if new_last_processed_id:` at line 105 skips the
watermark update when the captured id is the empty string, which defeats
idempotency; see the counterexample.) -/
theorem claim_c1_reingestion_idempotent (db : DBState) (seq : List Record)
    (hids : ∀ r ∈ seq, r.id ≠ "") :
    (main (main db seq).1 seq).1 = (main db seq).1 := by
  cases hc : (runLoop db.watermark seq none).2.2 with
  | none =>
    have hobs := runLoop_obs_nil_of_cand_none db.watermark seq hc
    have hdb1 : (main db seq).1 = ⟨db.fundraisers, db.watermark⟩ := by
      simp [main, hc, hobs]
    rw [hdb1]
    simp [main, hc, hobs]
  | some c =>
    have hcne : c ≠ "" := by
      rw [runLoop_cand] at hc
      cases hq : inRangeQualifying db.watermark seq with
      | nil => rw [hq] at hc; simp at hc
      | cons r0 rest =>
        rw [hq] at hc
        simp at hc
        subst hc
        exact hids r0 (mem_of_mem_inRangeQualifying (hq ▸ List.mem_cons_self r0 rest))
    have hbreak := runLoop_break db.watermark seq c hc
    have hdb1 : (main db seq).1 =
        ⟨db.fundraisers ++ (runLoop db.watermark seq none).1, some c⟩ := by
      simp [main, hc, hcne]
    rw [hdb1]
    simp [main, hbreak]

/-- C1 witness at a concrete non-empty-id sequence. -/
theorem claim_c1_witness :
    (main (main emptyDB [wRecord]).1 [wRecord]).1 = (main emptyDB [wRecord]).1 :=
  claim_c1_reingestion_idempotent emptyDB [wRecord] (by decide)

/-- C1 counterexample: for the author-matching summary record with the
empty-string id, the second run against the unchanged sequence inserts a
second copy of the row, so re-ingestion is not idempotent as claimed. -/
theorem claim_c1_counterexample :
    (main (main emptyDB [emptyIdRecord]).1 [emptyIdRecord]).1.fundraisers.length ≠
      (main emptyDB [emptyIdRecord]).1.fundraisers.length := by decide

/-- C2 (amended): if no in-range record passes the author filter the
watermark row is unchanged; if some does, the watermark afterwards
equals the id of the most recent such record provided that id is a
non-empty string, and is unchanged when that id is the empty string
(Python truthiness at line 105). -/
theorem claim_c2_watermark_most_recent (db : DBState) (seq : List Record) :
    (inRangeQualifying db.watermark seq = [] →
      (main db seq).1.watermark = db.watermark)
    ∧ (∀ r0 rest, inRangeQualifying db.watermark seq = r0 :: rest →
        (r0.id ≠ "" → (main db seq).1.watermark = some r0.id)
        ∧ (r0.id = "" → (main db seq).1.watermark = db.watermark)) := by
  constructor
  · intro hq
    have hc : (runLoop db.watermark seq none).2.2 = none := by
      rw [runLoop_cand, hq]; rfl
    simp [main, hc]
  · intro r0 rest hq
    have hc : (runLoop db.watermark seq none).2.2 = some r0.id := by
      rw [runLoop_cand, hq]; rfl
    constructor
    · intro hne
      simp [main, hc, hne]
    · intro he
      simp [main, hc, he]

/-- C2 witness: after ingesting one qualifying record the watermark is
that record's id. -/
theorem claim_c2_witness :
    (main emptyDB [wRecord]).1.watermark = some wRecord.id :=
  ((claim_c2_watermark_most_recent emptyDB [wRecord]).2 wRecord [] (by decide)).1
    (by decide)

/-- C2 counterexample: a qualifying in-range record with the
empty-string id leaves the watermark row untouched instead of storing
that id, refuting the claim as stated. -/
theorem claim_c2_counterexample :
    inRangeQualifying emptyDB.watermark [emptyIdPlainRecord] = [emptyIdPlainRecord]
    ∧ (main emptyDB [emptyIdPlainRecord]).1.watermark ≠ some emptyIdPlainRecord.id :=
  ⟨by decide, by decide⟩

/-- C3: in every run the watermark write happens at most once, never
before the final position of the event trace, and the rows inserted by
the trace are exactly the observations parsed from the in-range
author-matching records, so no reachable state has the watermark
advanced while parsed rows of a processed message are uninserted. -/
theorem claim_c3_watermark_after_inserts (db : DBState) (seq : List Record) :
    ((main db seq).2.dropLast.all fun e => ! e.isSetWatermark) = true
    ∧ ((main db seq).2.countP Event.isSetWatermark) ≤ 1
    ∧ insertedRows (main db seq).2 =
        (inRangeQualifying db.watermark seq).flatMap processMessage := by
  have hnoset := runLoop_evs_no_set db.watermark seq none
  have hins := insertedRows_runLoop db.watermark seq none
  have hobs := runLoop_obs db.watermark seq none
  have hplain : ∀ hevs : (main db seq).2 = (runLoop db.watermark seq none).2.1,
      ((main db seq).2.dropLast.all fun e => ! e.isSetWatermark) = true
      ∧ ((main db seq).2.countP Event.isSetWatermark) ≤ 1
      ∧ insertedRows (main db seq).2 =
          (inRangeQualifying db.watermark seq).flatMap processMessage := by
    intro hevs
    rw [hevs]
    refine ⟨?_, ?_, ?_⟩
    · rw [List.all_eq_true]
      intro e he
      have := hnoset e ((List.dropLast_sublist _).subset he)
      simp [this]
    · have h0 : ((runLoop db.watermark seq none).2.1.countP Event.isSetWatermark) = 0 := by
        rw [List.countP_eq_zero]
        intro e hee
        simp [hnoset e hee]
      omega
    · rw [hins, hobs]
  cases hc : (runLoop db.watermark seq none).2.2 with
  | none => exact hplain (by simp [main, hc])
  | some c =>
    by_cases he : c = ""
    · exact hplain (by simp [main, hc, he])
    · have hevs : (main db seq).2 =
          (runLoop db.watermark seq none).2.1 ++ [Event.setWatermark c] := by
        simp [main, hc, he]
      rw [hevs]
      refine ⟨?_, ?_, ?_⟩
      · rw [List.dropLast_concat, List.all_eq_true]
        intro e hee
        simp [hnoset e hee]
      · rw [List.countP_append]
        have h0 : ((runLoop db.watermark seq none).2.1.countP Event.isSetWatermark) = 0 := by
          rw [List.countP_eq_zero]
          intro e hee
          simp [hnoset e hee]
        simp [h0, Event.isSetWatermark, List.countP_cons]
      · rw [insertedRows_append, hins, hobs]
        simp [insertedRows]



/-! ## Parser lemmas -/

lemma isPrefixOf_nil_eq_false {sep : List Char} (hsep : sep ≠ []) :
    sep.isPrefixOf ([] : List Char) = false := by
  cases sep with
  | nil => exact absurd rfl hsep
  | cons c t => rfl

lemma pySplitGo_of_subAfter_none {sep : List Char} (hsep : sep ≠ []) :
    ∀ (s acc : List Char) (fuel : Nat), subAfter sep s = none → s.length ≤ fuel →
      pySplitGo sep fuel s acc = [acc.reverse ++ s] := by
  intro s
  induction s with
  | nil =>
    intro acc fuel _ _
    cases fuel with
    | zero => simp [pySplitGo]
    | succ f => simp [pySplitGo, isPrefixOf_nil_eq_false hsep]
  | cons c rest ih =>
    intro acc fuel h hf
    have hnp : sep.isPrefixOf (c :: rest) = false := by
      by_contra hc
      rw [Bool.not_eq_false] at hc
      unfold subAfter at h
      rw [if_pos hc] at h
      cases h
    have hrest : subAfter sep rest = none := by
      unfold subAfter at h
      rwa [if_neg (by simp [hnp])] at h
    cases fuel with
    | zero => simp at hf
    | succ f =>
      show pySplitGo sep (f + 1) (c :: rest) acc = _
      unfold pySplitGo
      rw [if_neg (by simp [hnp])]
      show pySplitGo sep f rest (c :: acc) = _
      rw [ih (c :: acc) f hrest (by simpa using hf)]
      simp

lemma subAfter_none_of_colonFree {t b : List Char} (hb : ∀ c ∈ b, c ≠ ':') :
    subAfter (':' :: t) b = none := by
  induction b with
  | nil => simp [subAfter]
  | cons c rest ih =>
    have hc : c ≠ ':' := hb c (List.mem_cons_self c rest)
    unfold subAfter
    rw [if_neg (by simp [List.isPrefixOf]; intro hcc; exact absurd hcc.symm hc)]
    exact ih fun x hx => hb x (List.mem_cons_of_mem c hx)

lemma subAfter_append_sep {a : List Char} (b : List Char)
    (ha : ∀ c ∈ a, c ≠ ':') :
    subAfter [':', ' ', 'r', '/'] (a ++ [':', ' ', 'r', '/'] ++ b) = some b := by
  induction a with
  | nil =>
    show subAfter [':', ' ', 'r', '/'] (':' :: (' ' :: ('r' :: ('/' :: b)))) = some b
    unfold subAfter
    rw [if_pos (by simp [List.isPrefixOf])]
    rfl
  | cons c t ih =>
    have hc : c ≠ ':' := ha c (List.mem_cons_self c t)
    show subAfter _ (c :: (t ++ _ ++ b)) = _
    unfold subAfter
    rw [if_neg (by simp [List.isPrefixOf]; intro hcc; exact absurd hcc.symm hc)]
    exact ih fun x hx => ha x (List.mem_cons_of_mem c hx)

lemma pySplitGo_colonFree {b : List Char} (hb : ∀ c ∈ b, c ≠ ':') :
    ∀ (a acc : List Char) (fuel : Nat), (∀ c ∈ a, c ≠ ':') →
      (a ++ [':', ' ', 'r', '/'] ++ b).length ≤ fuel →
      pySplitGo [':', ' ', 'r', '/'] fuel (a ++ [':', ' ', 'r', '/'] ++ b) acc =
        [acc.reverse ++ a, b] := by
  intro a
  induction a with
  | nil =>
    intro acc fuel _ hf
    rw [List.nil_append] at hf
    cases fuel with
    | zero => simp at hf
    | succ f =>
      show pySplitGo [':', ' ', 'r', '/'] (f + 1)
        (':' :: (' ' :: ('r' :: ('/' :: b)))) acc = _
      unfold pySplitGo
      rw [if_pos (by simp [List.isPrefixOf])]
      show acc.reverse :: pySplitGo [':', ' ', 'r', '/'] f b [] = _
      rw [pySplitGo_of_subAfter_none (by simp) b [] f
        (subAfter_none_of_colonFree hb) (by simp at hf; omega)]
      simp
  | cons c t ih =>
    intro acc fuel ha hf
    have hc : c ≠ ':' := ha c (List.mem_cons_self c t)
    cases fuel with
    | zero => simp at hf
    | succ f =>
      show pySplitGo [':', ' ', 'r', '/'] (f + 1)
        (c :: (t ++ [':', ' ', 'r', '/'] ++ b)) acc = _
      unfold pySplitGo
      rw [if_neg (by simp [List.isPrefixOf]; intro hcc; exact absurd hcc.symm hc)]
      show pySplitGo [':', ' ', 'r', '/'] f (t ++ [':', ' ', 'r', '/'] ++ b) (c :: acc) = _
      rw [ih (c :: acc) f (fun x hx => ha x (List.mem_cons_of_mem c hx))
        (by simpa using hf)]
      simp

lemma parseLine_subreddit {name line : String} {o : Obs}
    (h : parseLine name line = some o) : o.subreddit = name := by
  unfold parseLine at h
  split at h
  · split at h
    · cases h
      rfl
    · cases h
  · cases h

lemma parseLines_subreddit {name : String} {ls : List String} {o : Obs}
    (h : o ∈ parseLines name ls) : o.subreddit = name := by
  unfold parseLines at h
  rcases List.mem_filterMap.mp h with ⟨l, _, hl⟩
  exact parseLine_subreddit hl


/-! ## Claims C7-C8: message parsing -/


/-- C7: the parser discards blank lines and lines starting with
`"PostID"` or `"Subreddit:"` wherever they occur; the spec's example
body (header line, `Subreddit:` line, blank line, two well-formed data
lines) yields exactly its two Observations; a data line with a
non-integer `Raised` field, or with a field count other than four,
yields zero Observations (the `ValueError` is modelled by `Option`, so
nothing escapes the parser). -/
theorem claim_c7_parser_robustness :
    (∀ (sub l : String) (ls1 ls2 : List String),
        (hasNonWS l = false ∨ pyStartsWith "PostID" l = true ∨
          pyStartsWith "Subreddit:" l = true) →
        parseLines sub (ls1 ++ l :: ls2) = parseLines sub (ls1 ++ ls2))
    ∧ parseBody "test"
        "PostID,FundraiserID,Raised,Timestamp\nSubreddit: test\n\np1,f1,500,2024-01-01T00:00:00.000000Z\np2,f2,900,2024-01-02T12:34:56.789012Z" =
        [⟨"p1", "f1", 500, ⟨2024, 1, 1, 0, 0, 0, 0⟩, "test"⟩,
         ⟨"p2", "f2", 900, ⟨2024, 1, 2, 12, 34, 56, 789012⟩, "test"⟩]
    ∧ parseBody "test" "p3,f3,abc,2024-01-01T00:00:00.000000Z" = []
    ∧ parseBody "test" "p4,f4,500" = [] := by
  refine ⟨?_, by decide, by decide, by decide⟩
  intro sub l ls1 ls2 h
  have hk : keepLine l = false := by
    unfold keepLine
    rcases h with h | h | h <;> simp [h]
  simp [parseLines, List.filter_append, List.filter_cons, hk]

/-- C7 witness: a blank line inserted between data lines is discarded. -/
theorem claim_c7_witness :
    parseLines "test" (["p1,f1,500,2024-01-01T00:00:00.000000Z"] ++ "" :: []) =
      parseLines "test" (["p1,f1,500,2024-01-01T00:00:00.000000Z"] ++ []) :=
  claim_c7_parser_robustness.1 "test" ""
    ["p1,f1,500,2024-01-01T00:00:00.000000Z"] [] (Or.inl (by decide))

/-- C8 (amended): the derived name is element 1 of the subject split on
`": r/"`, the text between the first separator occurrence and the next
occurrence or the end of the subject.  When the separator occurs exactly
once (subject `A ++ ": r/" ++ B` with `A` and `B` free of `':'`) this
equals the substring following the separator, as the claim states; the
name is attached to every parsed Observation; and when the separator is
absent the whole message yields zero Observations and the loop moves on
to the next record. -/
theorem claim_c8_subject_handling :
    (∀ a b : String, (∀ c ∈ a.data, c ≠ ':') → (∀ c ∈ b.data, c ≠ ':') →
        parseSubject (a ++ ": r/" ++ b) = some b
        ∧ specSubstringAfterSeparator (a ++ ": r/" ++ b) = some b)
    ∧ (∀ (r : Record) (name : String), parseSubject r.subject = some name →
        ∀ o ∈ processMessage r, o.subreddit = name)
    ∧ (∀ (r : Record) (wm cand : Option String) (rs : List Record),
        parseSubject r.subject = none →
        processMessage r = []
        ∧ (r.authorID = FUNDRAISERS_APP_USER_ID → wm ≠ some r.id →
            runLoop wm (r :: rs) cand = runLoop wm rs (candOr cand r.id))) := by
  refine ⟨?_, ?_, ?_⟩
  · intro a b ha hb
    have hdata : (a ++ ": r/" ++ b).data = a.data ++ [':', ' ', 'r', '/'] ++ b.data := by
      simp [String.data_append]
    constructor
    · unfold parseSubject pySplit
      have hsep : (": r/").data = [':', ' ', 'r', '/'] := rfl
      rw [hsep, hdata]
      rw [pySplitGo_colonFree hb a.data [] _ ha (by omega)]
      rfl
    · unfold specSubstringAfterSeparator
      have hsep : (": r/").data = [':', ' ', 'r', '/'] := rfl
      rw [hsep, hdata, subAfter_append_sep b.data ha]
      rfl
  · intro r name hname o ho
    unfold processMessage at ho
    by_cases hs : pyStartsWith "Daily Fundraiser Summary" r.subject = true
    · rw [if_pos hs, hname] at ho
      unfold parseBody at ho
      exact parseLines_subreddit ho
    · rw [if_neg hs] at ho
      cases ho
  · intro r wm cand rs hnone
    have hpm : processMessage r = [] := by
      unfold processMessage
      by_cases hs : pyStartsWith "Daily Fundraiser Summary" r.subject = true
      · rw [if_pos hs, hnone]
      · rw [if_neg hs]
    refine ⟨hpm, ?_⟩
    intro hA hB
    simp [runLoop, hA, hB, hpm]

/-- C8 witness: on a one-separator subject the derived name is the
substring following the separator. -/
theorem claim_c8_witness :
    parseSubject ("Daily Fundraiser Summary" ++ ": r/" ++ "test") = some "test" :=
  (claim_c8_subject_handling.1 "Daily Fundraiser Summary" "test"
    (by decide) (by decide)).1

/-- C8 counterexample: when the separator occurs twice the derived name
is the segment between the occurrences, not the substring following the
separator, refuting the claim as stated. -/
theorem claim_c8_counterexample :
    parseSubject "Daily Fundraiser Summary: r/a: r/b" = some "a"
    ∧ specSubstringAfterSeparator "Daily Fundraiser Summary: r/a: r/b" = some "a: r/b"
    ∧ parseSubject "Daily Fundraiser Summary: r/a: r/b" ≠
        specSubstringAfterSeparator "Daily Fundraiser Summary: r/a: r/b" :=
  ⟨by decide, by decide, by decide⟩



/-! ## Claims C5, C9, C10: aggregation queries -/

/-- C10: in every database state the Dedup-A window assigns `rn = 1` to
exactly one row of each non-empty `(FundraiserID, day)` partition of the
filtered table — even when several rows of the partition share the
maximal timestamp — so each partition contributes exactly one `Raised`
value to the Dedup-A based aggregations. -/
theorem claim_c10_window_exactly_one (rows : List Obs) (fid : String)
    (d : Nat × Nat × Nat)
    (h : ∃ r ∈ includedRows rows, r.fundraiserID = fid ∧ dayOf r.timestamp = d) :
    ((dedupA (includedRows rows)).countP fun r => decide (keyA r = (fid, d))) = 1 := by
  apply dedupBy_countP_eq_one
  obtain ⟨r, hr, h1, h2⟩ := h
  exact ⟨r, hr, by simp [keyA, h1, h2]⟩

/-- C10 witness: with a timestamp tie, still exactly one survivor. -/
theorem claim_c10_witness :
    ((dedupA (includedRows tieRows)).countP
      fun r => decide (keyA r = ("f1", (2024, 1, 1)))) = 1 :=
  claim_c10_window_exactly_one tieRows "f1" (2024, 1, 1)
    ⟨⟨"p1", "f1", 500, ⟨2024, 1, 1, 0, 0, 0, 0⟩, "test"⟩, by decide, by decide, by decide⟩

/-- C5 (amended): after Dedup A at most one row survives per
`(FundraiserID, calendar day)` — not per `(FundraiserID, Subreddit)`.  A
fundraiser observed on several days keeps one surviving row per day, and
`MAX(Raised)` in the Top Fundraisers query then aggregates across those
days rather than reading off a single surviving value (see the
counterexample). -/
theorem claim_c5_dedupA_unique_per_day (rows : List Obs) (fid : String)
    (d : Nat × Nat × Nat) :
    ((dedupA (includedRows rows)).countP fun r => decide (keyA r = (fid, d))) ≤ 1 :=
  dedupBy_countP_le_one keyA (includedRows rows) (fid, d)

/-- C5 counterexample: two rows survive Dedup A for the single
`(FundraiserID, Subreddit)` pair, refuting "at most one row survives per
(FundraiserID, Subreddit)". -/
theorem claim_c5_counterexample :
    ((dedupA (includedRows twoDayRows)).countP
      fun r => decide (keyFS r = ("f1", "test"))) = 2 := by decide

/-- C9: the average-raised-per-day of the Subreddit Growth query is the
guarded CASE expression `avgRaisedPerDayFn`: at zero active days its
value is 0; the division `TotalRaised / DaysActive` is used only under
the guard `DaysActive > 0`; and every output row's average field is this
guarded expression applied to that row's own total and day count. -/
theorem claim_c9_division_guard :
    (∀ t : ℚ, avgRaisedPerDayFn t 0 = 0)
    ∧ (∀ (t : ℚ) (d : Nat), 0 < d → avgRaisedPerDayFn t d = t / (d : ℚ))
    ∧ (∀ (rows : List Obs), ∀ r ∈ calculate_subreddit_growth rows,
        r.avgRaisedPerDay = avgRaisedPerDayFn r.totalRaised r.daysActive) := by
  refine ⟨fun t => by simp [avgRaisedPerDayFn],
    fun t d hd => by simp [avgRaisedPerDayFn, hd], ?_⟩
  intro rows r hr
  simp only [calculate_subreddit_growth] at hr
  rw [(List.perm_insertionSort _ _).mem_iff] at hr
  rcases List.mem_map.mp hr with ⟨s, hs, rfl⟩
  rfl

/-- C9 witness: a positive day count takes the division branch. -/
theorem claim_c9_witness : avgRaisedPerDayFn 7 2 = 7 / ((2 : Nat) : ℚ) :=
  claim_c9_division_guard.2.1 7 2 (by decide)



/-! ## Claim C4: latest-snapshot deduplication scenario -/

lemma c4_dedup_core {κ : Type} [DecidableEq κ] (key : Obs → κ) (r1 r2 : Obs)
    (hkey : key r1 = key r2) (hlt : tsLt r1.timestamp r2.timestamp) :
    dedupBy key [r1, r2] = [r2] := by
  have hne : r1.timestamp ≠ r2.timestamp := fun he => tsLt_irrefl _ (he ▸ hlt)
  have hil : withIdx [r1, r2] 0 = [(0, r1), (1, r2)] := rfl
  have hs1 : ¬ survives key [(0, r1), (1, r2)] (0, r1) := by
    intro hs
    exact hs (1, r2) (by simp) hkey.symm (Or.inl hlt)
  have hs2 : survives key [(0, r1), (1, r2)] (1, r2) := by
    intro q hq hk
    rcases List.mem_cons.mp hq with rfl | hq2
    · rintro (h | ⟨he, -⟩)
      · exact tsLt_irrefl _ (tsLt_trans hlt h)
      · exact hne he.symm
    · rcases List.mem_cons.mp hq2 with rfl | hq3
      · exact beats_irrefl (1, r2)
      · cases hq3
  show (((withIdx [r1, r2] 0).filter
      fun p => decide (survives key (withIdx [r1, r2] 0) p)).map Prod.snd) = [r2]
  rw [hil]
  rw [List.filter_cons_of_neg (by simpa using hs1)]
  rw [List.filter_cons_of_pos (by simpa using hs2)]
  rfl

lemma c4_includedRows (r1 r2 : Obs) (h1 : r1.subreddit = "test")
    (h2 : r2.subreddit = "test") : includedRows [r1, r2] = [r1, r2] := by
  unfold includedRows
  rw [List.filter_cons_of_pos (by rw [h1]; rfl)]
  rw [List.filter_cons_of_pos (by rw [h2]; rfl)]
  rfl

/-- C4: with exactly two Observations of one fundraiser in subreddit
`test` on one calendar day — `Raised = 500` at `T1` and `Raised = 900` at
`T2 > T1` — Top Fundraisers, Daily Totals and Subreddit Totals each
report `9.00` currency units, not `14.00` or `5.00`. -/
theorem claim_c4_latest_snapshot_reported (fid p1 p2 : String)
    (T1 T2 : PyDateTime) (hday : dayOf T1 = dayOf T2) (hlt : tsLt T1 T2) :
    calculate_top_fundraisers
        [⟨p1, fid, 500, T1, "test"⟩, ⟨p2, fid, 900, T2, "test"⟩] 10 =
      [⟨fid, 9, "test"⟩]
    ∧ create_daily_totals_chart
        [⟨p1, fid, 500, T1, "test"⟩, ⟨p2, fid, 900, T2, "test"⟩] =
      [⟨dayOf T1, 9⟩]
    ∧ create_subreddit_bar_chart
        [⟨p1, fid, 500, T1, "test"⟩, ⟨p2, fid, 900, T2, "test"⟩] =
      [⟨"test", 9⟩] := by
  have hInc : includedRows [(⟨p1, fid, 500, T1, "test"⟩ : Obs), ⟨p2, fid, 900, T2, "test"⟩] =
      [⟨p1, fid, 500, T1, "test"⟩, ⟨p2, fid, 900, T2, "test"⟩] :=
    c4_includedRows _ _ rfl rfl
  have hA : dedupA [(⟨p1, fid, 500, T1, "test"⟩ : Obs), ⟨p2, fid, 900, T2, "test"⟩] =
      [⟨p2, fid, 900, T2, "test"⟩] :=
    c4_dedup_core keyA _ _ (by simp [keyA, hday]) hlt
  have hB : dedupB [(⟨p1, fid, 500, T1, "test"⟩ : Obs), ⟨p2, fid, 900, T2, "test"⟩] =
      [⟨p2, fid, 900, T2, "test"⟩] :=
    c4_dedup_core keyB _ _ rfl hlt
  have hval : ((900 : Int) : ℚ) / 100 = 9 := by norm_num
  refine ⟨?_, ?_, ?_⟩
  · simp only [calculate_top_fundraisers, hInc, hA]
    simp only [List.map_cons, List.map_nil, List.dedup_cons_of_not_mem (List.not_mem_nil _),
      List.dedup_nil]
    have hfil : ([(⟨p2, fid, 900, T2, "test"⟩ : Obs)].filter
        fun r => decide (keyFS r = keyFS ⟨p2, fid, 900, T2, "test"⟩)) =
        [⟨p2, fid, 900, T2, "test"⟩] := by
      rw [List.filter_cons_of_pos (by simp)]
      rfl
    rw [hfil]
    show List.take 10 (List.insertionSort (fun a b => b.maxRaised ≤ a.maxRaised)
      [TopRow.mk fid (((900 : Int) : ℚ) / 100) "test"]) = _
    rw [hval]
    simp [List.insertionSort, List.orderedInsert]
  · simp only [create_daily_totals_chart, hInc, hA]
    simp only [List.map_cons, List.map_nil, List.dedup_cons_of_not_mem (List.not_mem_nil _),
      List.dedup_nil]
    have hfil : ([(⟨p2, fid, 900, T2, "test"⟩ : Obs)].filter
        fun r => decide (dayOf r.timestamp = dayOf (⟨p2, fid, 900, T2, "test"⟩ : Obs).timestamp)) =
        [⟨p2, fid, 900, T2, "test"⟩] := by
      rw [List.filter_cons_of_pos (by simp)]
      rfl
    rw [hfil]
    show List.insertionSort (fun a b => dateLe a.date b.date)
      [DailyRow.mk (dayOf T2) (((900 : Int) : ℚ) / 100)] = _
    rw [hval, ← hday]
    simp [List.insertionSort, List.orderedInsert]
  · simp only [create_subreddit_bar_chart, hInc, hB]
    simp only [List.map_cons, List.map_nil, List.dedup_cons_of_not_mem (List.not_mem_nil _),
      List.dedup_nil]
    have hfil : ([(⟨p2, fid, 900, T2, "test"⟩ : Obs)].filter
        fun r => decide (r.subreddit = "test")) = [⟨p2, fid, 900, T2, "test"⟩] := by
      rw [List.filter_cons_of_pos (by simp)]
      rfl
    rw [hfil]
    show List.insertionSort (fun a b => b.totalRaised ≤ a.totalRaised)
      [SubTotalRow.mk "test" (((900 : Int) : ℚ) / 100)] = _
    rw [hval]
    simp [List.insertionSort, List.orderedInsert]

/-- C4 witness at concrete timestamps on 2024-01-01. -/
theorem claim_c4_witness :
    calculate_top_fundraisers
        [⟨"p1", "f1", 500, ⟨2024, 1, 1, 0, 0, 0, 0⟩, "test"⟩,
         ⟨"p2", "f1", 900, ⟨2024, 1, 1, 12, 0, 0, 0⟩, "test"⟩] 10 =
      [⟨"f1", 9, "test"⟩] :=
  (claim_c4_latest_snapshot_reported "f1" "p1" "p2"
    ⟨2024, 1, 1, 0, 0, 0, 0⟩ ⟨2024, 1, 1, 12, 0, 0, 0⟩ (by decide) (by decide)).1



/-! ## Claim C6: Subreddit Growth statistics -/

lemma foldl_add_init (l : List Int) (a : Int) :
    l.foldl (· + ·) a = a + l.foldl (· + ·) 0 := by
  induction l generalizing a with
  | nil => simp
  | cons x xs ih =>
    simp only [List.foldl_cons]
    rw [ih (a + x), ih (0 + x)]
    omega

lemma sumRaised_init (g : List Obs) (a : Int) :
    g.foldl (fun a r => a + r.raised) a = a + g.foldl (fun a r => a + r.raised) 0 := by
  induction g generalizing a with
  | nil => simp
  | cons x xs ih =>
    simp only [List.foldl_cons]
    rw [ih (a + x.raised), ih (0 + x.raised)]
    omega

lemma sumRaised_cons (r : Obs) (g : List Obs) :
    sumRaised (r :: g) = r.raised + sumRaised g := by
  unfold sumRaised
  simp only [List.foldl_cons]
  rw [sumRaised_init g (0 + r.raised)]
  omega

lemma growth_caseSum (il : List (Nat × Obs)) (P : Nat × Obs → Prop)
    [DecidablePred P] (s : String) :
    ((il.filter fun p => decide (p.2.subreddit = s)).map
        fun p => if P p then p.2.raised else 0).foldl (· + ·) 0
      = sumRaised (((il.filter fun p => decide (P p)).map Prod.snd).filter
          fun r => decide (r.subreddit = s)) := by
  induction il with
  | nil => rfl
  | cons p m ih =>
    by_cases hq : p.2.subreddit = s
    · by_cases hP : P p
      · rw [List.filter_cons_of_pos (by simp [hq]), List.map_cons,
          List.filter_cons_of_pos (by simp [hP]), List.map_cons,
          List.filter_cons_of_pos (by simp [hq]), sumRaised_cons]
        simp only [List.foldl_cons, if_pos hP]
        rw [foldl_add_init _ (0 + p.2.raised), ih]
        omega
      · rw [List.filter_cons_of_pos (by simp [hq]), List.map_cons,
          List.filter_cons_of_neg (by simp [hP])]
        simp only [List.foldl_cons, if_neg hP]
        rw [foldl_add_init _ (0 + 0), ih]
        omega
    · by_cases hP : P p
      · rw [List.filter_cons_of_neg (by simp [hq]),
          List.filter_cons_of_pos (by simp [hP]), List.map_cons,
          List.filter_cons_of_neg (by simp [hq])]
        exact ih
      · rw [List.filter_cons_of_neg (by simp [hq]),
          List.filter_cons_of_neg (by simp [hP])]
        exact ih

/-- C6 (amended): for every source appearing among the filtered rows,
the Subreddit Growth output contains the row whose first day, last day,
active-day count and fundraiser count range over all non-excluded rows
of that source (the un-restricted `latest_fundraiser` CTE), while only
`TotalRaised` — and the average derived from it — is restricted to the
rows kept by Dedup rule B. -/
theorem claim_c6_growth_stats_scope (rows : List Obs) (s : String)
    (hs : s ∈ ((includedRows rows).map fun r => r.subreddit).dedup) :
    GrowthRow.mk s
      (minDayIn ((((includedRows rows).filter fun r => decide (r.subreddit = s)).map
        fun r => dayOf r.timestamp).dedup))
      (maxDayIn ((((includedRows rows).filter fun r => decide (r.subreddit = s)).map
        fun r => dayOf r.timestamp).dedup))
      ((((includedRows rows).filter fun r => decide (r.subreddit = s)).map
        fun r => dayOf r.timestamp).dedup.length)
      ((((includedRows rows).filter fun r => decide (r.subreddit = s)).map
        fun r => r.fundraiserID).dedup.length)
      (((sumRaised ((dedupB (includedRows rows)).filter
          fun r => decide (r.subreddit = s)) : Int) : ℚ) / 100)
      (avgRaisedPerDayFn
        (((sumRaised ((dedupB (includedRows rows)).filter
            fun r => decide (r.subreddit = s)) : Int) : ℚ) / 100)
        ((((includedRows rows).filter fun r => decide (r.subreddit = s)).map
          fun r => dayOf r.timestamp).dedup.length))
      ∈ calculate_subreddit_growth rows := by
  simp only [calculate_subreddit_growth]
  rw [(List.perm_insertionSort _ _).mem_iff]
  apply List.mem_map.mpr
  refine ⟨s, hs, ?_⟩
  have hsum := growth_caseSum (withIdx (includedRows rows) 0)
    (survives keyB (withIdx (includedRows rows) 0)) s
  unfold dedupB dedupBy
  rw [← hsum]



/-- C6 witness at the two-day fundraiser database. -/
theorem claim_c6_witness :
    GrowthRow.mk "test"
      (minDayIn ((((includedRows twoDayRows).filter
        fun r => decide (r.subreddit = "test")).map fun r => dayOf r.timestamp).dedup))
      (maxDayIn ((((includedRows twoDayRows).filter
        fun r => decide (r.subreddit = "test")).map fun r => dayOf r.timestamp).dedup))
      ((((includedRows twoDayRows).filter
        fun r => decide (r.subreddit = "test")).map fun r => dayOf r.timestamp).dedup.length)
      ((((includedRows twoDayRows).filter
        fun r => decide (r.subreddit = "test")).map fun r => r.fundraiserID).dedup.length)
      (((sumRaised ((dedupB (includedRows twoDayRows)).filter
          fun r => decide (r.subreddit = "test")) : Int) : ℚ) / 100)
      (avgRaisedPerDayFn
        (((sumRaised ((dedupB (includedRows twoDayRows)).filter
            fun r => decide (r.subreddit = "test")) : Int) : ℚ) / 100)
        ((((includedRows twoDayRows).filter
          fun r => decide (r.subreddit = "test")).map fun r => dayOf r.timestamp).dedup.length))
      ∈ calculate_subreddit_growth twoDayRows :=
  claim_c6_growth_stats_scope twoDayRows "test" (by decide)

/-- C6 counterexample: with one fundraiser observed on two days, the
code reports two active days while Dedup-B restricted statistics (as the
claim states them) would report one, so the span statistics are not
computed over the Dedup-B rows. -/
theorem claim_c6_counterexample :
    (calculate_subreddit_growth twoDayRows).map (fun r => r.daysActive) = [2]
    ∧ (subredditGrowthSpec twoDayRows).map (fun r => r.daysActive) = [1] :=
  ⟨by decide, by decide⟩


end StatsUtil
